import Mathlib

/-!
# Verified model of the prefect schedule computation engine

The repository ships the test suite for its scheduling core
(`src/tests/serialization/test_schedules.py`) but the engine itself
(`prefect/schedules/clocks.py`, `prefect/schedules/filters.py`,
`prefect/schedules/adjustments.py`, `prefect/schedules/schedules.py` and
`prefect/serialization/schedule.py`) is not part of the source snapshot.
The definitions below therefore model that engine from the design
specification, and the theorems at the end of the file settle the
specification's claims against this model.

Conventions:
* an *instant* is an integer count of microseconds since the Unix epoch,
  in UTC (the specification's scenarios are all UTC; pendulum datetimes
  have microsecond resolution, so this representation is exact);
* durations are integer microsecond counts;
* calendar conversions use the standard proleptic-Gregorian civil-date
  algorithms over floor division.
-/

set_option maxRecDepth 100000

namespace Prefect

def usPerSecond : Int := 1000000

def usPerMinute : Int := 60000000

def usPerHour : Int := 3600000000

def usPerDay : Int := 86400000000

/-- Modelled from the spec: days since the epoch of a civil date
(proleptic Gregorian).  Standard civil-from-days companion; `/` on `Int`
is floor division for the positive divisors used here. -/
def daysFromCivil (y m d : Int) : Int :=
  let y' := if m ≤ 2 then y - 1 else y
  let era := y' / 400
  let yoe := y' - era * 400
  let mp := if m ≤ 2 then m + 9 else m - 3
  let doy := (153 * mp + 2) / 5 + d - 1
  let doe := yoe * 365 + yoe / 4 - yoe / 100 + doy
  era * 146097 + doe - 719468

/-- Modelled from the spec: civil date `(year, month, day)` of an epoch
day number (proleptic Gregorian). -/
def civilFromDays (z : Int) : Int × Int × Int :=
  let z' := z + 719468
  let era := z' / 146097
  let doe := z' - era * 146097
  let yoe := (doe - doe / 1460 + doe / 36524 - doe / 146096) / 365
  let y := yoe + era * 400
  let doy := doe - (365 * yoe + yoe / 4 - yoe / 100)
  let mp := (5 * doy + 2) / 153
  let d := doy - (153 * mp + 2) / 5 + 1
  let m := if mp < 10 then mp + 3 else mp - 9
  (if m ≤ 2 then y + 1 else y, m, d)

/-- The UTC instant of a civil date and time of day. -/
def utc (y mo d h mi s : Int) : Int :=
  daysFromCivil y mo d * usPerDay + (h * 3600 + mi * 60 + s) * usPerSecond

/-- Epoch day number containing an instant. -/
def epochDay (t : Int) : Int := t / usPerDay

/-- Day of week of an instant, `0` = Sunday … `6` = Saturday
(day `0`, 1970-01-01, was a Thursday). -/
def dayOfWeek (t : Int) : Int := (epochDay t + 4) % 7

/-- Microseconds elapsed since midnight UTC at an instant. -/
def timeOfDay (t : Int) : Int := t % usPerDay

/-- Modelled from the spec: a clock variant — a pure generator of an
ascending sequence of candidate instants.  `IntervalClock` fires every
`period` from its `start_date` anchor (from the fixed epoch reference,
midnight 1970-01-01 UTC, when no `start_date` is given); `CronClock`
fires at the firing times of a five-field cron expression; `OneTimeClock`
fires exactly once. -/
inductive Clock where
  | IntervalClock (period : Int) (start_date end_date : Option Int)
  | CronClock (cron : String) (start_date end_date : Option Int)
  | OneTimeClock (at_ : Int)
  deriving DecidableEq, Repr

/-- Modelled from the spec: the built-in filters — `is_weekday`,
`between_times lo hi` (inclusive time-of-day window in microseconds
since midnight, wrapping past midnight when `lo > hi`) and
`between_dates m1 d1 m2 d2` (inclusive year-agnostic calendar window,
wrapping across year end). -/
inductive Filter where
  | is_weekday
  | between_times (lo hi : Int)
  | between_dates (m1 d1 m2 d2 : Int)
  deriving DecidableEq, Repr

/-- Modelled from the spec: the built-in adjustment `add duration`. -/
inductive Adjustment where
  | add (interval : Int)
  deriving DecidableEq, Repr

/-- Modelled from the spec: a schedule composes clocks (logical OR),
`filters` (all must pass), `or_filters` (at least one must pass when
non-empty), `not_filters` (none may pass) and an ordered list of
adjustments applied to accepted candidates. -/
structure Schedule where
  clocks : List Clock
  filters : List Filter := []
  or_filters : List Filter := []
  not_filters : List Filter := []
  adjustments : List Adjustment := []
  deriving DecidableEq, Repr

/-- Whether a filter matches a (raw) instant. -/
def Filter.matches : Filter → Int → Bool
  | .is_weekday, t =>
      decide (1 ≤ dayOfWeek t ∧ dayOfWeek t ≤ 5)
  | .between_times lo hi, t =>
      if lo ≤ hi then decide (lo ≤ timeOfDay t ∧ timeOfDay t ≤ hi)
      else decide (lo ≤ timeOfDay t ∨ timeOfDay t ≤ hi)
  | .between_dates m1 d1 m2 d2, t =>
      let c := civilFromDays (epochDay t)
      let mo := c.2.1
      let d := c.2.2
      let ge1 : Bool := decide (m1 < mo ∨ (m1 = mo ∧ d1 ≤ d))
      let le2 : Bool := decide (mo < m2 ∨ (mo = m2 ∧ d ≤ d2))
      if m1 < m2 ∨ (m1 = m2 ∧ d1 ≤ d2) then ge1 && le2 else ge1 || le2

/-- Applying an adjustment to an accepted instant. -/
def Adjustment.apply : Adjustment → Int → Int
  | .add interval, t => t + interval

/-- Applying a schedule's adjustments in declared order. -/
def applyAdjustments : List Adjustment → Int → Int
  | [], t => t
  | a :: rest, t => applyAdjustments rest (a.apply t)

/-- A parsed five-field cron expression.  Each field is `none` for `*`
or the single numeric value the field restricts to. -/
structure CronSpec where
  minute : Option Nat
  hour : Option Nat
  dom : Option Nat
  month : Option Nat
  dow : Option Nat
  deriving DecidableEq, Repr

/-- Splits a character list on a separator character. -/
def splitChars (sep : Char) : List Char → List Char → List (List Char)
  | [], acc => [acc.reverse]
  | c :: rest, acc =>
      if c = sep then acc.reverse :: splitChars sep rest []
      else splitChars sep rest (c :: acc)

/-- The numeric value of a decimal digit character, if it is one. -/
def digitVal (c : Char) : Option Nat :=
  if '0' ≤ c ∧ c ≤ '9' then some (c.toNat - 48) else none

/-- Reads a non-empty all-digit character list as a natural number. -/
def readNat : List Char → Option Nat
  | [] => none
  | cs => go cs 0
where
  go : List Char → Nat → Option Nat
    | [], acc => some acc
    | c :: rest, acc =>
        match digitVal c with
        | some v => go rest (10 * acc + v)
        | none => none

/-- Modelled from the spec: one cron field — `*` or a numeric value
within the field's range. -/
def parseCronField (lo hi : Nat) (cs : List Char) : Option (Option Nat) :=
  if cs = ['*'] then some none
  else
    match readNat cs with
    | some v => if lo ≤ v ∧ v ≤ hi then some (some v) else none
    | none => none

/-- Modelled from the spec: parsing a five-field cron expression
(minute, hour, day-of-month, month, day-of-week); `none` when the
expression is malformed. -/
def parseCron (s : String) : Option CronSpec :=
  match splitChars ' ' s.toList [] with
  | [f1, f2, f3, f4, f5] => do
      let mi ← parseCronField 0 59 f1
      let h ← parseCronField 0 23 f2
      let dm ← parseCronField 1 31 f3
      let mo ← parseCronField 1 12 f4
      let dw ← parseCronField 0 7 f5
      some ⟨mi, h, dm, mo, dw⟩
  | _ => none

/-- Modelled from the spec: whether a minute-aligned instant is a firing
time of a cron specification.  Day-of-month and day-of-week combine with
OR semantics, per POSIX cron, when both are restricted. -/
def cronMatches (cs : CronSpec) (t : Int) : Bool :=
  let z := epochDay t
  let c := civilFromDays z
  let minuteOk := match cs.minute with
    | none => true
    | some v => decide ((v : Int) = (t % usPerHour) / usPerMinute)
  let hourOk := match cs.hour with
    | none => true
    | some v => decide ((v : Int) = (t % usPerDay) / usPerHour)
  let monthOk := match cs.month with
    | none => true
    | some v => decide ((v : Int) = c.2.1)
  let domOk : Bool := match cs.dom with
    | none => true
    | some v => decide ((v : Int) = c.2.2)
  let dowOk : Bool := match cs.dow with
    | none => true
    | some v => decide (((v % 7 : Nat) : Int) = dayOfWeek t)
  let dayOk := match cs.dom, cs.dow with
    | some _, some _ => domOk || dowOk
    | _, _ => domOk && dowOk
  minuteOk && hourOk && monthOk && dayOk

/-- Searches minute by minute for the first firing time at or after `m`,
with fuel bounding the search. -/
def cronSearch (cs : CronSpec) : Nat → Int → Option Int
  | 0, _ => none
  | fuel + 1, m => if cronMatches cs m then some m else cronSearch cs fuel (m + usPerMinute)

/-- Search bound for cron firing times: cron expressions in the modelled
subset fire at least once per five years when they fire at all. -/
def cronFuel : Nat := 2700000

/-- The smallest firing instant of an interval clock strictly after `t`
and at or after its anchor: the anchor itself when `t` lies before it,
and otherwise the next multiple of the period past `t` (the anchor is
the fixed epoch reference, instant `0`, when no `start_date` is set). -/
def intervalCandidate (period : Int) (st : Option Int) (t : Int) : Int :=
  match st with
  | some s => if t < s then s else s + period * ((t - s) / period + 1)
  | none => period * (t / period + 1)

/-- Discards a candidate lying past the clock's `end_date` bound. -/
def applyEnd (en : Option Int) (cand : Int) : Option Int :=
  match en with
  | some e => if e < cand then none else some cand
  | none => some cand

/-- The first minute boundary from which a cron clock may fire: strictly
after `t` and at or after the clock's `start_date`. -/
def cronLower (st : Option Int) (t : Int) : Int :=
  let lower := match st with
    | some s => max t (s - 1)
    | none => t
  usPerMinute * (lower / usPerMinute + 1)

/-- Modelled from the spec: the smallest candidate instant of a clock
strictly after `t` (`after` is always exclusive), at or after the
clock's `start_date` and at or before its `end_date` when those bounds
are set; `none` when the clock is exhausted. -/
def clockNext (c : Clock) (t : Int) : Option Int :=
  match c with
  | .IntervalClock period st en => applyEnd en (intervalCandidate period st t)
  | .CronClock expr st en =>
      match parseCron expr with
      | none => none
      | some cs =>
          match cronSearch cs cronFuel (cronLower st t) with
          | none => none
          | some v => applyEnd en v
  | .OneTimeClock at_ => if t < at_ then some at_ else none

/-- The smaller of two optional candidates (`none` = exhausted). -/
def minOpt : Option Int → Option Int → Option Int
  | none, b => b
  | a, none => a
  | some x, some y => some (min x y)

/-- Modelled from the spec: the earliest candidate strictly after `t`
over all clocks; identical instants produced by more than one clock
collapse to a single candidate. -/
def minCandidate (cls : List Clock) (t : Int) : Option Int :=
  match cls with
  | [] => none
  | c :: rest => minOpt (clockNext c t) (minCandidate rest t)

/-- Modelled from the spec: the filter gates evaluated on a raw clock
instant — all `filters` must match, at least one of `or_filters` must
match when that set is non-empty, and no `not_filter` may match. -/
def gatesOk (s : Schedule) (t : Int) : Bool :=
  s.filters.all (fun f => f.matches t) &&
  (s.or_filters.isEmpty || s.or_filters.any (fun f => f.matches t)) &&
  s.not_filters.all (fun f => !(f.matches t))

/-- Modelled from the spec: the `next` loop.  Candidates are taken from
the merged, deduplicated ascending stream; each is gated on its raw
value, and accepted candidates are returned after adjustment.  Fuel
bounds the number of candidates examined. -/
def Schedule.nextFrom (s : Schedule) : Nat → Nat → Int → List Int
  | 0, _, _ => []
  | _ + 1, 0, _ => []
  | fuel + 1, n + 1, t =>
      match minCandidate s.clocks t with
      | none => []
      | some c =>
          if gatesOk s c then
            applyAdjustments s.adjustments c :: s.nextFrom fuel n c
          else
            s.nextFrom fuel (n + 1) c

/-- Candidate budget of a single `next` call. -/
def nextFuel : Nat := 4000

/-- Modelled from the spec: `next n after` — the at most `n` earliest
adjusted instants of accepted candidates strictly after `after`. -/
def Schedule.next (s : Schedule) (n : Nat) (after : Int) : List Int :=
  s.nextFrom nextFuel n after

deriving instance DecidableEq for Except

/-- Modelled from the spec: construction-time failures — non-positive
interval, malformed cron expression, `end` before `start`. -/
inductive ValidationError where
  | nonPositivePeriod
  | malformedCron
  | endBeforeStart
  deriving DecidableEq, Repr

/-- Whether an optional `end_date` lies strictly before an optional
`start_date`. -/
def endBeforeStart : Option Int → Option Int → Bool
  | some s, some e => decide (e < s)
  | _, _ => false

/-- Modelled from the spec: `IntervalClock` construction fails with a
`ValidationError` on a non-positive period or `end` before `start`. -/
def mkIntervalClock (period : Int) (st en : Option Int) : Except ValidationError Clock :=
  if period ≤ 0 then .error .nonPositivePeriod
  else if endBeforeStart st en then .error .endBeforeStart
  else .ok (.IntervalClock period st en)

/-- Modelled from the spec: `CronClock` construction fails with a
`ValidationError` on a malformed expression or `end` before `start`. -/
def mkCronClock (expr : String) (st en : Option Int) : Except ValidationError Clock :=
  match parseCron expr with
  | none => .error .malformedCron
  | some _ =>
      if endBeforeStart st en then .error .endBeforeStart
      else .ok (.CronClock expr st en)

/-- Modelled from the spec: `OneTimeClock` construction never fails. -/
def mkOneTimeClock (at_ : Int) : Except ValidationError Clock :=
  .ok (.OneTimeClock at_)

/-- A clock that passes its construction-time validation. -/
def Clock.validb : Clock → Bool
  | .IntervalClock p st en => decide (0 < p) && !endBeforeStart st en
  | .CronClock e st en => (parseCron e).isSome && !endBeforeStart st en
  | .OneTimeClock _ => true

/-- A schedule all of whose clocks pass construction-time validation. -/
def Schedule.validb (s : Schedule) : Bool := s.clocks.all Clock.validb

/-- Modelled from the spec: decoding failures of the codec — unknown
`type` discriminator or a missing/ill-typed required field. -/
inductive SchemaError where
  | unknownType
  | missingField
  | badField
  deriving DecidableEq, Repr

/-- An error surfaced by `load`: either a schema error or a
construction-time validation error. -/
inductive LoadError where
  | validation (e : ValidationError)
  | schema (e : SchemaError)
  deriving DecidableEq, Repr

/-- A JSON-safe structured value: the codomain of `dump` and domain of
`load`. -/
inductive Json where
  | null
  | num (n : Int)
  | str (s : String)
  | arr (elements : List Json)
  | obj (fields : List (String × Json))

/-- Key lookup in the field list of a structured object. -/
def lookupKey : List (String × Json) → String → Option Json
  | [], _ => none
  | (k, v) :: rest, key => if k = key then some v else lookupKey rest key

/-- The value of a field of a structured object, if any. -/
def Json.get (j : Json) (key : String) : Option Json :=
  match j with
  | .obj fields => lookupKey fields key
  | _ => none

/-- A required field of a structured object. -/
def getField (j : Json) (key : String) : Except LoadError Json :=
  match j.get key with
  | some v => .ok v
  | none => .error (.schema .missingField)

/-- Reads a structured value as an integer. -/
def asNum : Json → Except LoadError Int
  | .num v => .ok v
  | _ => .error (.schema .badField)

/-- Reads a structured value as a string. -/
def asStr : Json → Except LoadError String
  | .str v => .ok v
  | _ => .error (.schema .badField)

/-- Reads a structured value as an array. -/
def asArr : Json → Except LoadError (List Json)
  | .arr xs => .ok xs
  | _ => .error (.schema .badField)

/-- Reads a structured value as an optional instant (new-model form:
`null` or an integer microsecond count). -/
def asOptInstant : Json → Except LoadError (Option Int)
  | .null => .ok none
  | .num v => .ok (some v)
  | _ => .error (.schema .badField)

/-- The two-digit number named by two characters, if both are digits. -/
def readNat2 (a b : Char) : Option Nat := do
  let x <- digitVal a
  let y <- digitVal b
  pure (10 * x + y)

/-- Modelled from the spec: parsing a legacy ISO-8601 local timestamp
string `YYYY-MM-DDTHH:MM:SS` into an instant. -/
def parseDT (s : String) : Option Int :=
  match s.toList with
  | [y1, y2, y3, y4, '-', a1, a2, '-', b1, b2, 'T', h1, h2, ':', i1, i2, ':', c1, c2] => do
      let yh <- readNat2 y1 y2
      let yl <- readNat2 y3 y4
      let mo <- readNat2 a1 a2
      let d <- readNat2 b1 b2
      let h <- readNat2 h1 h2
      let mi <- readNat2 i1 i2
      let sec <- readNat2 c1 c2
      if 1 ≤ mo ∧ mo ≤ 12 ∧ 1 ≤ d ∧ d ≤ 31 ∧ h ≤ 23 ∧ mi ≤ 59 ∧ sec ≤ 59 then
        some (utc (100 * yh + yl) mo d h mi sec)
      else none
  | _ => none

/-- Modelled from the spec: a legacy instant `{dt, tz}`.  All instants
in the specification's scenarios are UTC, and only the UTC zone is
modelled; any other zone name is rejected as a bad field. -/
def legacyInstant (j : Json) : Except LoadError Int := do
  let d <- getField j "dt" >>= asStr
  let tz <- getField j "tz" >>= asStr
  if tz = "UTC" then
    match parseDT d with
    | some v => pure v
    | none => .error (.schema .badField)
  else .error (.schema .badField)

/-- A legacy optional instant: `null`, a missing field, or `{dt, tz}`. -/
def legacyOptInstant : Option Json → Except LoadError (Option Int)
  | none => .ok none
  | some .null => .ok none
  | some j => do pure (some (<- legacyInstant j))

/-- Serializes an optional instant (new-model form). -/
def dumpInstantOpt : Option Int → Json
  | none => .null
  | some v => .num v

/-- Modelled from the spec: serializing a clock, dispatching on a `type`
discriminator. -/
def dumpClock : Clock → Json
  | .IntervalClock p st en =>
      .obj [("type", .str "IntervalClock"), ("period", .num p),
            ("start_date", dumpInstantOpt st), ("end_date", dumpInstantOpt en)]
  | .CronClock e st en =>
      .obj [("type", .str "CronClock"), ("cron", .str e),
            ("start_date", dumpInstantOpt st), ("end_date", dumpInstantOpt en)]
  | .OneTimeClock at_ =>
      .obj [("type", .str "OneTimeClock"), ("at", .num at_)]

/-- Modelled from the spec: serializing a filter with its descriptive
tag. -/
def dumpFilter : Filter → Json
  | .is_weekday => .obj [("type", .str "is_weekday")]
  | .between_times lo hi =>
      .obj [("type", .str "between_times"), ("lo", .num lo), ("hi", .num hi)]
  | .between_dates m1 d1 m2 d2 =>
      .obj [("type", .str "between_dates"), ("m1", .num m1), ("d1", .num d1),
            ("m2", .num m2), ("d2", .num d2)]

/-- Modelled from the spec: serializing an adjustment with its
descriptive tag. -/
def dumpAdjustment : Adjustment → Json
  | .add v => .obj [("type", .str "add"), ("interval", .num v)]

/-- Modelled from the spec: `dump` — the JSON-safe structured form of a
schedule. -/
def dumpSchedule (s : Schedule) : Json :=
  .obj [("type", .str "Schedule"),
        ("clocks", .arr (s.clocks.map dumpClock)),
        ("filters", .arr (s.filters.map dumpFilter)),
        ("or_filters", .arr (s.or_filters.map dumpFilter)),
        ("not_filters", .arr (s.not_filters.map dumpFilter)),
        ("adjustments", .arr (s.adjustments.map dumpAdjustment))]

/-- Modelled from the spec: deserializing a clock, validating its
construction input. -/
def loadClock (j : Json) : Except LoadError Clock := do
  let ty <- getField j "type" >>= asStr
  if ty = "IntervalClock" then do
    let p <- getField j "period" >>= asNum
    let st <- getField j "start_date" >>= asOptInstant
    let en <- getField j "end_date" >>= asOptInstant
    (mkIntervalClock p st en).mapError .validation
  else if ty = "CronClock" then do
    let e <- getField j "cron" >>= asStr
    let st <- getField j "start_date" >>= asOptInstant
    let en <- getField j "end_date" >>= asOptInstant
    (mkCronClock e st en).mapError .validation
  else if ty = "OneTimeClock" then do
    let v <- getField j "at" >>= asNum
    pure (.OneTimeClock v)
  else .error (.schema .unknownType)

/-- Modelled from the spec: deserializing a filter by its tag. -/
def loadFilter (j : Json) : Except LoadError Filter := do
  let ty <- getField j "type" >>= asStr
  if ty = "is_weekday" then pure .is_weekday
  else if ty = "between_times" then do
    let lo <- getField j "lo" >>= asNum
    let hi <- getField j "hi" >>= asNum
    pure (.between_times lo hi)
  else if ty = "between_dates" then do
    let m1 <- getField j "m1" >>= asNum
    let d1 <- getField j "d1" >>= asNum
    let m2 <- getField j "m2" >>= asNum
    let d2 <- getField j "d2" >>= asNum
    pure (.between_dates m1 d1 m2 d2)
  else .error (.schema .unknownType)

/-- Modelled from the spec: deserializing an adjustment by its tag. -/
def loadAdjustment (j : Json) : Except LoadError Adjustment := do
  let ty <- getField j "type" >>= asStr
  if ty = "add" then do
    let v <- getField j "interval" >>= asNum
    pure (.add v)
  else .error (.schema .unknownType)

/-- Modelled from the spec: the legacy interval-schedule decoder — the
`interval` microsecond count becomes the period of a single
`IntervalClock` anchored at `start_date`, with `end_date` folded into
the clock's own bound. -/
def decodeLegacyInterval (us : Int) (st : Int) (en : Option Int) : Except LoadError Schedule := do
  let c <- (mkIntervalClock us (some st) en).mapError .validation
  pure { clocks := [c] }

/-- Modelled from the spec: the legacy cron-schedule decoder — a single
`CronClock` carrying the legacy bounds. -/
def decodeLegacyCron (expr : String) (st en : Option Int) : Except LoadError Schedule := do
  let c <- (mkCronClock expr st en).mapError .validation
  pure { clocks := [c] }

/-- Modelled from the spec: the legacy one-time-schedule decoder — a
single `OneTimeClock` at the legacy `start_date`. -/
def decodeLegacyOneTime (st : Int) : Except LoadError Schedule :=
  .ok { clocks := [.OneTimeClock st] }

/-- Modelled from the spec: `load` — dispatches on the `type`
discriminator, routing legacy discriminators (which arrive together
with a `__version__` tag) through the legacy decoders and rejecting
unknown discriminators with a `SchemaError`.  The legacy union decoder
is outside the modelled subset. -/
def loadSchedule (j : Json) : Except LoadError Schedule := do
  let ty <- getField j "type" >>= asStr
  if ty = "Schedule" then do
    let cls <- (<- getField j "clocks" >>= asArr).mapM loadClock
    let fs <- (<- getField j "filters" >>= asArr).mapM loadFilter
    let ofs <- (<- getField j "or_filters" >>= asArr).mapM loadFilter
    let nfs <- (<- getField j "not_filters" >>= asArr).mapM loadFilter
    let adjs <- (<- getField j "adjustments" >>= asArr).mapM loadAdjustment
    pure ⟨cls, fs, ofs, nfs, adjs⟩
  else if ty = "IntervalSchedule" then do
    let us <- getField j "interval" >>= asNum
    let st <- getField j "start_date" >>= legacyInstant
    let en <- legacyOptInstant (j.get "end_date")
    decodeLegacyInterval us st en
  else if ty = "CronSchedule" then do
    let e <- getField j "cron" >>= asStr
    let st <- legacyOptInstant (j.get "start_date")
    let en <- legacyOptInstant (j.get "end_date")
    decodeLegacyCron e st en
  else if ty = "OneTimeSchedule" then do
    let st <- getField j "start_date" >>= legacyInstant
    decodeLegacyOneTime st
  else .error (.schema .unknownType)

/-- The combined shift of a list of adjustments. -/
def totalShift : List Adjustment → Int
  | [] => 0
  | .add v :: rest => v + totalShift rest

/-- A clock whose candidate sequence is bounded: an `end_date` is set,
or the clock is a `OneTimeClock`. -/
def Clock.boundedb : Clock → Bool
  | .IntervalClock _ _ en => en.isSome
  | .CronClock _ _ en => en.isSome
  | .OneTimeClock _ => true

lemma applyAdjustments_shift (adjs : List Adjustment) (t : Int) :
    applyAdjustments adjs t = t + totalShift adjs := by
  induction adjs generalizing t with
  | nil => simp [applyAdjustments, totalShift]
  | cons a rest ih =>
      cases a with
      | add v =>
          simp only [applyAdjustments, totalShift, Adjustment.apply, ih]
          ring

lemma lt_interval_step {p : Int} (hp : 0 < p) (s t : Int) :
    t < s + p * ((t - s) / p + 1) := by
  have h := Int.lt_ediv_add_one_mul_self (t - s) hp
  linarith [mul_comm p ((t - s) / p + 1)]

lemma cronSearch_ge (cs : CronSpec) :
    ∀ fuel m v, cronSearch cs fuel m = some v → m ≤ v := by
  intro fuel
  induction fuel with
  | zero => intro m v h; simp [cronSearch] at h
  | succ f ih =>
      intro m v h
      simp only [cronSearch] at h
      by_cases hm : cronMatches cs m = true
      · rw [if_pos hm] at h
        injection h with h
        omega
      · rw [if_neg hm] at h
        have h60 : (0 : Int) < usPerMinute := by norm_num [usPerMinute]
        have := ih _ _ h
        linarith

lemma applyEnd_some {en : Option Int} {cand v : Int}
    (h : applyEnd en cand = some v) : v = cand := by
  cases en with
  | none => simpa [applyEnd] using h.symm
  | some e =>
      simp only [applyEnd] at h
      split at h
      · exact absurd h (by simp)
      · injection h with h
        omega

lemma intervalCandidate_gt {p : Int} (hp : 0 < p) (st : Option Int)
    (t : Int) : t < intervalCandidate p st t := by
  cases st with
  | none =>
      have := lt_interval_step hp 0 t
      simpa [intervalCandidate] using this
  | some s =>
      simp only [intervalCandidate]
      split
      · assumption
      · exact lt_interval_step hp s t

lemma cronLower_gt (st : Option Int) (t : Int) : t < cronLower st t := by
  have h60 : (0 : Int) < usPerMinute := by norm_num [usPerMinute]
  cases st with
  | none =>
      have := lt_interval_step h60 0 t
      simpa [cronLower] using this
  | some s =>
      simp only [cronLower]
      rcases le_total t (s - 1) with h1 | h1
      · rw [max_eq_right h1]
        have := lt_interval_step h60 0 (s - 1)
        simp only [zero_add, sub_zero] at this
        linarith
      · rw [max_eq_left h1]
        have := lt_interval_step h60 0 t
        simp only [zero_add, sub_zero] at this
        linarith

lemma clockNext_gt {c : Clock} (hv : c.validb = true) {t v : Int}
    (h : clockNext c t = some v) : t < v := by
  cases c with
  | IntervalClock p st en =>
      simp only [Clock.validb, Bool.and_eq_true, decide_eq_true_eq] at hv
      obtain ⟨hp, -⟩ := hv
      simp only [clockNext] at h
      have hgt := intervalCandidate_gt hp st t
      have hc := applyEnd_some h
      rw [hc]
      exact hgt
  | CronClock e st en =>
      simp only [clockNext] at h
      cases hp : parseCron e with
      | none => simp only [hp] at h; exact absurd h (by simp)
      | some cs =>
          simp only [hp] at h
          cases hs : cronSearch cs cronFuel (cronLower st t) with
          | none => simp only [hs] at h; exact absurd h (by simp)
          | some w =>
              simp only [hs] at h
              have hw := cronSearch_ge cs cronFuel (cronLower st t) w hs
              have hl := cronLower_gt st t
              have hc := applyEnd_some h
              rw [hc]
              linarith
  | OneTimeClock at_ =>
      simp only [clockNext] at h
      by_cases hlt : t < at_
      · rw [if_pos hlt] at h
        injection h with h
        omega
      · rw [if_neg hlt] at h
        exact absurd h (by simp)

lemma minOpt_mem {a b : Option Int} {v : Int}
    (h : minOpt a b = some v) : a = some v ∨ b = some v := by
  cases a with
  | none => right; simpa [minOpt] using h
  | some x =>
      cases b with
      | none => left; simpa [minOpt] using h
      | some y =>
          simp only [minOpt, Option.some_inj] at h
          rcases le_total x y with h1 | h1
          · left; rw [min_eq_left h1] at h; rw [h]
          · right; rw [min_eq_right h1] at h; rw [h]

lemma minCandidate_gt {cls : List Clock} (hv : ∀ c ∈ cls, c.validb = true)
    {t v : Int} (h : minCandidate cls t = some v) : t < v := by
  induction cls with
  | nil => simp [minCandidate] at h
  | cons c rest ih =>
      simp only [minCandidate] at h
      rcases minOpt_mem h with h1 | h1
      · exact clockNext_gt (hv c (by simp)) h1
      · exact ih (fun d hd => hv d (by simp [hd])) h1

lemma nextFrom_length_le (s : Schedule) :
    ∀ fuel n t, (s.nextFrom fuel n t).length ≤ n := by
  intro fuel
  induction fuel with
  | zero => intro n t; simp [Schedule.nextFrom]
  | succ f ih =>
      intro n t
      cases n with
      | zero => simp [Schedule.nextFrom]
      | succ m =>
          simp only [Schedule.nextFrom]
          cases h : minCandidate s.clocks t with
          | none => simp
          | some c =>
              by_cases hg : gatesOk s c = true
              · simp only [hg, if_true, List.length_cons]
                exact Nat.succ_le_succ (ih m c)
              · simp only [hg, if_false]
                exact ih (m + 1) c

lemma nextFrom_spec (s : Schedule) (hv : s.validb = true) :
    ∀ fuel n t, ∃ raws : List Int,
      s.nextFrom fuel n t = raws.map (applyAdjustments s.adjustments) ∧
      raws.Chain' (· < ·) ∧ (∀ r ∈ raws, t < r ∧ gatesOk s r = true) ∧
      raws.length ≤ n := by
  have hv' : ∀ c ∈ s.clocks, c.validb = true := by
    simpa [Schedule.validb, List.all_eq_true] using hv
  intro fuel
  induction fuel with
  | zero =>
      intro n t
      exact ⟨[], by simp [Schedule.nextFrom], by simp, by simp, by simp⟩
  | succ f ih =>
      intro n t
      cases n with
      | zero => exact ⟨[], by simp [Schedule.nextFrom], by simp, by simp, by simp⟩
      | succ m =>
          cases h : minCandidate s.clocks t with
          | none =>
              exact ⟨[], by simp [Schedule.nextFrom, h], by simp, by simp, by simp⟩
          | some c =>
              have htc : t < c := minCandidate_gt hv' h
              by_cases hg : gatesOk s c = true
              · obtain ⟨raws, e1, e2, e3, e4⟩ := ih m c
                refine ⟨c :: raws, ?_, ?_, ?_, ?_⟩
                · simp [Schedule.nextFrom, h, hg, e1]
                · rw [List.chain'_cons']
                  exact ⟨fun y hy => (e3 y (List.mem_of_mem_head? hy)).1, e2⟩
                · intro r hr
                  rcases List.mem_cons.mp hr with rfl | hr
                  · exact ⟨htc, hg⟩
                  · exact ⟨lt_trans htc (e3 r hr).1, (e3 r hr).2⟩
                · simpa [List.length_cons] using Nat.succ_le_succ e4
              · obtain ⟨raws, e1, e2, e3, e4⟩ := ih (m + 1) c
                refine ⟨raws, ?_, e2, ?_, e4⟩
                · simp [Schedule.nextFrom, h, hg, e1]
                · intro r hr
                  exact ⟨lt_trans htc (e3 r hr).1, (e3 r hr).2⟩

lemma next_spec (s : Schedule) (hv : s.validb = true) (n : Nat) (a : Int) :
    ∃ raws : List Int,
      s.next n a = raws.map (applyAdjustments s.adjustments) ∧
      raws.Chain' (· < ·) ∧ (∀ r ∈ raws, a < r ∧ gatesOk s r = true) ∧
      raws.length ≤ n :=
  nextFrom_spec s hv nextFuel n a

lemma next_chain (s : Schedule) (hv : s.validb = true) (n : Nat) (a : Int) :
    (s.next n a).Chain' (· < ·) := by
  obtain ⟨raws, e1, e2, e3, e4⟩ := next_spec s hv n a
  rw [e1, List.chain'_map]
  refine List.Chain'.imp ?_ e2
  intro x y hxy
  simp only [applyAdjustments_shift]
  omega

lemma next_mem (s : Schedule) (hv : s.validb = true) {n : Nat} {a x : Int}
    (hx : x ∈ s.next n a) :
    ∃ c, a < c ∧ gatesOk s c = true ∧ x = applyAdjustments s.adjustments c := by
  obtain ⟨raws, e1, e2, e3, e4⟩ := next_spec s hv n a
  rw [e1, List.mem_map] at hx
  obtain ⟨c, hc, rfl⟩ := hx
  exact ⟨c, (e3 c hc).1, (e3 c hc).2, rfl⟩

lemma mapM_map_ok {α β : Type} (d : α → β) (l : β → Except LoadError α) :
    ∀ xs : List α, (∀ x ∈ xs, l (d x) = .ok x) → (xs.map d).mapM l = .ok xs := by
  intro xs
  induction xs with
  | nil => intro _; rfl
  | cons x rest ih =>
      intro h
      rw [List.map_cons, List.mapM_cons, h x (by simp),
          ih (fun y hy => h y (by simp [hy]))]
      rfl

lemma loadFilter_dumpFilter (f : Filter) : loadFilter (dumpFilter f) = .ok f := by
  cases f <;> rfl

lemma loadAdjustment_dumpAdjustment (a : Adjustment) :
    loadAdjustment (dumpAdjustment a) = .ok a := by
  cases a
  rfl

lemma asOptInstant_dump (st : Option Int) : asOptInstant (dumpInstantOpt st) = .ok st := by
  cases st <;> rfl

lemma mkIntervalClock_ok {p : Int} {st en : Option Int} (hp : 0 < p)
    (he : endBeforeStart st en = false) :
    mkIntervalClock p st en = .ok (.IntervalClock p st en) := by
  simp [mkIntervalClock, hp.not_le, he]

lemma mkCronClock_ok {e : String} {cs : CronSpec} {st en : Option Int}
    (hpc : parseCron e = some cs) (he : endBeforeStart st en = false) :
    mkCronClock e st en = .ok (.CronClock e st en) := by
  simp [mkCronClock, hpc, he]

lemma loadClock_dumpClock {c : Clock} (h : c.validb = true) :
    loadClock (dumpClock c) = .ok c := by
  cases c with
  | IntervalClock p st en =>
      simp only [Clock.validb, Bool.and_eq_true, decide_eq_true_eq,
                 Bool.not_eq_true'] at h
      obtain ⟨hp, he⟩ := h
      simp [loadClock, dumpClock, getField, Json.get, lookupKey, asStr, asNum,
            asOptInstant_dump, mkIntervalClock_ok hp he, bind, Except.bind,
            Except.mapError]
  | CronClock e st en =>
      simp only [Clock.validb, Bool.and_eq_true, Bool.not_eq_true'] at h
      obtain ⟨hpc, he⟩ := h
      obtain ⟨cs, hcs⟩ := Option.isSome_iff_exists.mp hpc
      simp [loadClock, dumpClock, getField, Json.get, lookupKey, asStr, asNum,
            asOptInstant_dump, mkCronClock_ok hcs he, bind, Except.bind,
            Except.mapError]
  | OneTimeClock at_ => rfl

lemma load_dump (s : Schedule) (hv : s.validb = true) :
    loadSchedule (dumpSchedule s) = .ok s := by
  obtain ⟨cls, fs, ofs, nfs, adjs⟩ := s
  have hv' : ∀ c ∈ cls, c.validb = true := by
    simpa [Schedule.validb, List.all_eq_true] using hv
  have hc : (cls.map dumpClock).mapM loadClock = .ok cls :=
    mapM_map_ok _ _ cls (fun c h => loadClock_dumpClock (hv' c h))
  have hf : (fs.map dumpFilter).mapM loadFilter = .ok fs :=
    mapM_map_ok _ _ fs (fun f _ => loadFilter_dumpFilter f)
  have ho : (ofs.map dumpFilter).mapM loadFilter = .ok ofs :=
    mapM_map_ok _ _ ofs (fun f _ => loadFilter_dumpFilter f)
  have hn : (nfs.map dumpFilter).mapM loadFilter = .ok nfs :=
    mapM_map_ok _ _ nfs (fun f _ => loadFilter_dumpFilter f)
  have ha : (adjs.map dumpAdjustment).mapM loadAdjustment = .ok adjs :=
    mapM_map_ok _ _ adjs (fun a _ => loadAdjustment_dumpAdjustment a)
  unfold List.mapM at hc hf ho hn ha
  simp [loadSchedule, dumpSchedule, getField, Json.get, lookupKey, asStr, asArr,
        hc, hf, ho, hn, ha, bind, Except.bind, pure, Except.pure]

lemma oneTime_next_empty (at_ a : Int) (h : at_ ≤ a) :
    ∀ fuel n, Schedule.nextFrom { clocks := [.OneTimeClock at_] } fuel n a = [] := by
  intro fuel n
  cases fuel with
  | zero => rfl
  | succ f =>
      cases n with
      | zero => rfl
      | succ m =>
          have hmc : minCandidate [.OneTimeClock at_] a = none := by
            simp [minCandidate, minOpt, clockNext, not_lt.mpr h]
          simp [Schedule.nextFrom, hmc]

lemma oneTime_next_fires (at_ a : Int) (h : a < at_) :
    ∀ fuel n, 2 ≤ fuel → 1 ≤ n →
      Schedule.nextFrom { clocks := [.OneTimeClock at_] } fuel n a = [at_] := by
  intro fuel n hf hn
  obtain ⟨f, rfl⟩ : ∃ f, fuel = f + 2 := ⟨fuel - 2, by omega⟩
  obtain ⟨m, rfl⟩ : ∃ m, n = m + 1 := ⟨n - 1, by omega⟩
  have h1 : minCandidate [.OneTimeClock at_] a = some at_ := by
    simp [minCandidate, minOpt, clockNext, h]
  have hg : gatesOk { clocks := [.OneTimeClock at_] } at_ = true := by
    simp [gatesOk]
  have h2 : minCandidate [.OneTimeClock at_] at_ = none := by
    simp [minCandidate, minOpt, clockNext]
  cases m with
  | zero => simp [Schedule.nextFrom, h1, hg, applyAdjustments]
  | succ k => simp [Schedule.nextFrom, h1, hg, h2, applyAdjustments]

/-- Fixture: the composite schedule of the serialization test — hourly
clock, weekday filter, 9am-or-3pm alternatives, not January 8, plus a
three-hour adjustment. -/
def complexSchedule : Schedule :=
  { clocks := [.IntervalClock usPerHour none none]
    filters := [.is_weekday]
    or_filters := [.between_times (9 * usPerHour) (9 * usPerHour),
                   .between_times (15 * usPerHour) (15 * usPerHour)]
    not_filters := [.between_dates 1 8 1 8]
    adjustments := [.add (3 * usPerHour)] }

/-- Fixture: a one-day clock and a twelve-hour clock starting two days
later, which can produce coinciding instants. -/
def multiClockSchedule : Schedule :=
  { clocks := [.IntervalClock usPerDay none none,
               .IntervalClock (12 * usPerHour) (some (utc 2019 1 3 0 0 0)) none] }

/-- Fixture: the legacy interval-schedule payload of the
backwards-compatibility test. -/
def legacyIntervalJson : Json :=
  .obj [("start_date", .obj [("dt", .str "2019-01-02T03:00:00"), ("tz", .str "UTC")]),
        ("end_date", .null),
        ("interval", .num 3720000000),
        ("__version__", .str "0.6.0+87.g44ac9ba5"),
        ("type", .str "IntervalSchedule")]

/-- The schedule the legacy interval payload decodes to. -/
def legacyIntervalSchedule : Schedule :=
  { clocks := [.IntervalClock 3720000000 (some (utc 2019 1 2 3 0 0)) none] }

/-- Fixture: the legacy interval-schedule payload with an `end_date`. -/
def legacyIntervalEndJson : Json :=
  .obj [("interval", .num 3720000000),
        ("start_date", .obj [("dt", .str "2019-01-02T03:00:00"), ("tz", .str "UTC")]),
        ("end_date", .obj [("dt", .str "2020-01-01T00:00:00"), ("tz", .str "UTC")]),
        ("__version__", .str "0.6.0+87.g44ac9ba5"),
        ("type", .str "IntervalSchedule")]

/-- The schedule the bounded legacy interval payload decodes to. -/
def legacyIntervalEndSchedule : Schedule :=
  { clocks := [.IntervalClock 3720000000 (some (utc 2019 1 2 3 0 0))
                 (some (utc 2020 1 1 0 0 0))] }

/-- Fixture: the legacy cron-schedule payload with an `end_date`. -/
def legacyCronEndJson : Json :=
  .obj [("end_date", .obj [("dt", .str "2020-01-01T00:00:00"), ("tz", .str "UTC")]),
        ("cron", .str "3 0 * * *"),
        ("start_date", .obj [("dt", .str "2019-01-02T03:00:00"), ("tz", .str "UTC")]),
        ("__version__", .str "0.6.0+105.gce4aef06"),
        ("type", .str "CronSchedule")]

/-- The schedule the bounded legacy cron payload decodes to. -/
def legacyCronEndSchedule : Schedule :=
  { clocks := [.CronClock "3 0 * * *" (some (utc 2019 1 2 3 0 0))
                 (some (utc 2020 1 1 0 0 0))] }

/-- Fixture: the legacy one-time-schedule payload. -/
def oneTimeJson : Json :=
  .obj [("start_date", .obj [("dt", .str "2019-01-02T03:00:00"), ("tz", .str "UTC")]),
        ("__version__", .str "0.6.0+105.gce4aef06"),
        ("type", .str "OneTimeSchedule")]

/-- A schedule holding a single one-time clock. -/
def oneTimeSchedule (at_ : Int) : Schedule := { clocks := [.OneTimeClock at_] }

/-- Fixture: an hourly schedule whose adjustment subtracts two hours,
pushing returned instants before the raw candidates. -/
def negAdjustSchedule : Schedule :=
  { clocks := [.IntervalClock usPerHour none none]
    adjustments := [.add (-(2 * usPerHour))] }

/-- Fixture: a one-day interval clock with no `start_date`. -/
def dailySchedule : Schedule := { clocks := [.IntervalClock usPerDay none none] }

/-- Claim C1: for every valid schedule, deserializing the serialized
structured form yields a schedule whose `next` agrees with the original
at every `n` and `after`.  The structured form is a JSON-safe value, so
the pass through plain JSON text is the identity on it (that text layer
is the generic external serializer). -/
theorem schedule_codec_roundtrip (s : Schedule) (hv : s.validb = true) :
    loadSchedule (dumpSchedule s) = .ok s ∧
    ∀ s2 : Schedule, loadSchedule (dumpSchedule s) = .ok s2 →
      ∀ n a, s2.next n a = s.next n a := by
  refine ⟨load_dump s hv, ?_⟩
  intro s2 h2 n a
  rw [load_dump s hv] at h2
  injection h2 with h2
  rw [h2]

theorem schedule_codec_roundtrip_witness :
    complexSchedule.validb = true ∧
    loadSchedule (dumpSchedule complexSchedule) = .ok complexSchedule :=
  ⟨by decide, (schedule_codec_roundtrip complexSchedule (by decide)).1⟩

/-- Claim C2: every returned instant is the adjustment image of a raw
candidate that passed the gates — filters are evaluated on raw clock
instants, and adjustments define the returned instant; and the
composite schedule (hourly clock, weekday filter, 9am/3pm alternatives,
not January 8, add three hours) returns 12:00 and 18:00 on Jan 3, 4
and 7 of 2019, skips the weekend of Jan 5-6, and skips Jan 8,
continuing on Jan 9. -/
theorem filters_gate_raw_instants :
    (∀ s : Schedule, s.validb = true → ∀ (n : Nat) (a x : Int), x ∈ s.next n a →
        ∃ c, a < c ∧ gatesOk s c = true ∧ x = applyAdjustments s.adjustments c) ∧
    complexSchedule.next 8 (utc 2019 1 3 0 0 0) =
      [utc 2019 1 3 12 0 0, utc 2019 1 3 18 0 0,
       utc 2019 1 4 12 0 0, utc 2019 1 4 18 0 0,
       utc 2019 1 7 12 0 0, utc 2019 1 7 18 0 0,
       utc 2019 1 9 12 0 0, utc 2019 1 9 18 0 0] := by
  constructor
  · intro s hv n a x hx
    exact next_mem s hv hx
  · decide

theorem filters_gate_raw_instants_witness :
    ∃ c, utc 2019 1 3 0 0 0 < c ∧ gatesOk complexSchedule c = true ∧
      utc 2019 1 3 12 0 0 = applyAdjustments complexSchedule.adjustments c :=
  filters_gate_raw_instants.1 complexSchedule (by decide) 8 (utc 2019 1 3 0 0 0)
    (utc 2019 1 3 12 0 0) (by decide)

/-- Claim C3: the legacy interval decoder builds exactly the schedule of
a single `IntervalClock` whose period is the legacy microsecond count
(`interval / 1_000_000` seconds, exact in the microsecond
representation) anchored at `start_date`; and loading the concrete
legacy payload yields ten instants 62 minutes apart starting at
2019-01-02T03:00:00Z. -/
theorem legacy_interval_decode_exact :
    (∀ (us : Int) (st : Int) (en : Option Int), 0 < us →
        endBeforeStart (some st) en = false →
        decodeLegacyInterval us st en =
          .ok { clocks := [.IntervalClock us (some st) en] }) ∧
    loadSchedule legacyIntervalJson = .ok legacyIntervalSchedule ∧
    legacyIntervalSchedule.next 10 (utc 2019 1 1 0 0 0) =
      (List.range 10).map
        (fun k => utc 2019 1 2 3 0 0 + (k : Int) * (62 * usPerMinute)) := by
  refine ⟨?_, by decide, by decide⟩
  intro us st en h1 h2
  simp [decodeLegacyInterval, mkIntervalClock_ok h1 h2, bind, Except.bind,
        Except.mapError, pure, Except.pure]

theorem legacy_interval_decode_exact_witness :
    decodeLegacyInterval 3720000000 (utc 2019 1 2 3 0 0) none =
      .ok { clocks := [.IntervalClock 3720000000 (some (utc 2019 1 2 3 0 0)) none] } :=
  legacy_interval_decode_exact.1 3720000000 (utc 2019 1 2 3 0 0) none
    (by decide) (by decide)

/-- Claim C4: for a schedule with more than one clock, `next` is the
adjustment image of a strictly ascending list of raw candidates — the
merged streams are in ascending order and an instant produced by more
than one clock appears at most once before gating; the concrete
two-clock schedule returns the six merged, deduplicated instants with
the coinciding midnights appearing once each. -/
theorem clock_merge_dedup :
    (∀ s : Schedule, s.validb = true → 1 < s.clocks.length →
        ∀ (n : Nat) (a : Int),
        ∃ raws : List Int, s.next n a = raws.map (applyAdjustments s.adjustments) ∧
          raws.Chain' (· < ·) ∧ ∀ r ∈ raws, a < r ∧ gatesOk s r = true) ∧
    multiClockSchedule.next 6 (utc 2019 1 1 0 0 0) =
      [utc 2019 1 2 0 0 0, utc 2019 1 3 0 0 0, utc 2019 1 3 12 0 0,
       utc 2019 1 4 0 0 0, utc 2019 1 4 12 0 0, utc 2019 1 5 0 0 0] := by
  constructor
  · intro s hv _ n a
    obtain ⟨raws, e1, e2, e3, -⟩ := next_spec s hv n a
    exact ⟨raws, e1, e2, e3⟩
  · decide

theorem clock_merge_dedup_witness :
    ∃ raws : List Int,
      multiClockSchedule.next 6 (utc 2019 1 1 0 0 0) =
        raws.map (applyAdjustments multiClockSchedule.adjustments) ∧
      raws.Chain' (· < ·) ∧
      ∀ r ∈ raws, utc 2019 1 1 0 0 0 < r ∧ gatesOk multiClockSchedule r = true :=
  clock_merge_dedup.1 multiClockSchedule (by decide) (by decide) 6
    (utc 2019 1 1 0 0 0)

/-- Claim C5: `next` on a schedule of bounded clocks is still a total
function returning at most `n` instants — exhaustion is not an error;
the bounded legacy interval payload returns only four instants and the
bounded legacy cron payload returns none. -/
theorem bounded_exhaustion_returns_short :
    (∀ s : Schedule, (∀ c ∈ s.clocks, c.boundedb = true) →
        ∀ (n : Nat) (a : Int), (s.next n a).length ≤ n) ∧
    (loadSchedule legacyIntervalEndJson = .ok legacyIntervalEndSchedule ∧
      legacyIntervalEndSchedule.next 10 (utc 2019 12 31 20 0 0) =
        [utc 2019 12 31 20 36 0, utc 2019 12 31 21 38 0,
         utc 2019 12 31 22 40 0, utc 2019 12 31 23 42 0]) ∧
    (loadSchedule legacyCronEndJson = .ok legacyCronEndSchedule ∧
      legacyCronEndSchedule.next 10 (utc 2019 12 31 20 0 0) = []) := by
  refine ⟨?_, ⟨by decide, by decide⟩, ⟨by decide, by decide⟩⟩
  intro s _ n a
  exact nextFrom_length_le s nextFuel n a

theorem bounded_exhaustion_returns_short_witness :
    (legacyCronEndSchedule.next 10 (utc 2019 12 31 20 0 0)).length ≤ 10 :=
  bounded_exhaustion_returns_short.1 legacyCronEndSchedule (by decide) 10
    (utc 2019 12 31 20 0 0)

/-- Claim C6: `after` is always exclusive — a one-time clock with
instant `at` yields `[]` for any `after` at or past `at` and exactly
`[at]` for any `after` strictly before it; and the legacy one-time
payload decodes to such a schedule. -/
theorem one_time_after_exclusive :
    (∀ (at_ a : Int) (n : Nat), at_ ≤ a → (oneTimeSchedule at_).next n a = []) ∧
    (∀ (at_ a : Int) (n : Nat), a < at_ → 1 ≤ n →
        (oneTimeSchedule at_).next n a = [at_]) ∧
    loadSchedule oneTimeJson = .ok (oneTimeSchedule (utc 2019 1 2 3 0 0)) := by
  refine ⟨?_, ?_, by decide⟩
  · intro at_ a n h
    exact oneTime_next_empty at_ a h nextFuel n
  · intro at_ a n h hn
    exact oneTime_next_fires at_ a h nextFuel n (by norm_num [nextFuel]) hn

theorem one_time_after_exclusive_witness :
    (oneTimeSchedule (utc 2019 1 2 3 0 0)).next 10 (utc 2020 1 1 0 0 0) = [] ∧
    (oneTimeSchedule (utc 2019 1 2 3 0 0)).next 10 (utc 2019 1 1 0 0 0) =
      [utc 2019 1 2 3 0 0] :=
  ⟨one_time_after_exclusive.1 (utc 2019 1 2 3 0 0) (utc 2020 1 1 0 0 0) 10
      (by decide),
   one_time_after_exclusive.2.1 (utc 2019 1 2 3 0 0) (utc 2019 1 1 0 0 0) 10
      (by decide) (by decide)⟩

/-- Claim C7 counterexample: a valid schedule whose adjustment subtracts
two hours returns an instant not strictly greater than `after` — the
claim fails as stated when adjustments shift time backwards. -/
theorem next_gt_after_cex :
    ¬ (∀ x ∈ negAdjustSchedule.next 1 0, (0 : Int) < x) := by decide

/-- Claim C7 (amended): for every valid schedule, `next n after` is a
strictly ascending sequence of at most `n` instants, and every returned
(adjusted) instant is strictly greater than `after` whenever the
combined adjustment shift is nonnegative — with a backwards shift a
returned instant may precede `after`. -/
theorem next_ascending_at_most_n (s : Schedule) (hv : s.validb = true)
    (n : Nat) (a : Int) :
    (s.next n a).Chain' (· < ·) ∧ (s.next n a).length ≤ n ∧
    (0 ≤ totalShift s.adjustments → ∀ x ∈ s.next n a, a < x) := by
  refine ⟨next_chain s hv n a, nextFrom_length_le s nextFuel n a, ?_⟩
  intro hshift x hx
  obtain ⟨c, hc1, -, rfl⟩ := next_mem s hv hx
  rw [applyAdjustments_shift]
  linarith

theorem next_ascending_at_most_n_witness :
    (complexSchedule.next 8 (utc 2019 1 3 0 0 0)).Chain' (· < ·) ∧
    (complexSchedule.next 8 (utc 2019 1 3 0 0 0)).length ≤ 8 ∧
    (0 ≤ totalShift complexSchedule.adjustments →
      ∀ x ∈ complexSchedule.next 8 (utc 2019 1 3 0 0 0),
        utc 2019 1 3 0 0 0 < x) :=
  next_ascending_at_most_n complexSchedule (by decide) 8 (utc 2019 1 3 0 0 0)

/-- Claim C8: `next` is a pure function of `(schedule, n, after)` — in
any sequence of calls on the same schedule value, two calls with
identical arguments return identical results; no call mutates the
schedule, which is an immutable value. -/
theorem next_pure_of_args (s : Schedule) (qs : List (Nat × Int)) (i j : Nat)
    (h : qs[i]? = qs[j]?) :
    (qs.map (fun q => s.next q.1 q.2))[i]? =
      (qs.map (fun q => s.next q.1 q.2))[j]? := by
  simp [List.getElem?_map, h]

theorem next_pure_of_args_witness :
    ([(2, 0), (2, 0)].map
        (fun q => (oneTimeSchedule 5).next q.1 q.2))[0]? =
      ([(2, 0), (2, 0)].map
        (fun q => (oneTimeSchedule 5).next q.1 q.2))[1]? :=
  next_pure_of_args (oneTimeSchedule 5) [(2, 0), (2, 0)] 0 1 (by decide)

/-- Claim C9: malformed construction input — a non-positive interval
period, a malformed cron expression, or an `end` before `start` — is
rejected with a `ValidationError` at construction time.  `next` itself
is a total function into lists of instants, so no error can arise
inside it. -/
theorem construction_validation :
    (∀ (p : Int) (st en : Option Int), p ≤ 0 →
        mkIntervalClock p st en = .error .nonPositivePeriod) ∧
    (∀ (e : String) (st en : Option Int), parseCron e = none →
        mkCronClock e st en = .error .malformedCron) ∧
    (∀ (p s e : Int), 0 < p → e < s →
        mkIntervalClock p (some s) (some e) = .error .endBeforeStart) ∧
    (∀ (ex : String) (cs : CronSpec) (s e : Int),
        parseCron ex = some cs → e < s →
        mkCronClock ex (some s) (some e) = .error .endBeforeStart) := by
  refine ⟨?_, ?_, ?_, ?_⟩
  · intro p st en h
    simp [mkIntervalClock, h]
  · intro e st en h
    simp [mkCronClock, h]
  · intro p s e hp he
    simp [mkIntervalClock, not_le.mpr hp, endBeforeStart, he]
  · intro ex cs s e hp he
    simp [mkCronClock, hp, endBeforeStart, he]

theorem construction_validation_witness :
    mkIntervalClock 0 none none = .error .nonPositivePeriod ∧
    mkCronClock "not a cron" none none = .error .malformedCron ∧
    mkIntervalClock 5 (some 10) (some 3) = .error .endBeforeStart :=
  ⟨construction_validation.1 0 none none (by decide),
   construction_validation.2.1 "not a cron" none none (by decide),
   construction_validation.2.2.1 5 10 3 (by decide) (by decide)⟩

/-- Claim C10: a one-day interval clock with no `start_date` anchors at
the fixed epoch reference (midnight 1970-01-01 UTC), so its candidate
after any `after` is exactly the first midnight-UTC day boundary
strictly after it, independent of any wall clock; concretely, after
2019-01-01T00:00:00Z it fires at midnight on Jan 2, 3 and 4. -/
theorem unanchored_interval_midnight :
    (∀ a : Int, ∃ c, clockNext (.IntervalClock usPerDay none none) a = some c ∧
        c % usPerDay = 0 ∧ a < c ∧
        ∀ x : Int, x % usPerDay = 0 → a < x → c ≤ x) ∧
    dailySchedule.next 3 (utc 2019 1 1 0 0 0) =
      [utc 2019 1 2 0 0 0, utc 2019 1 3 0 0 0, utc 2019 1 4 0 0 0] := by
  constructor
  · intro a
    have hd : (0 : Int) < usPerDay := by norm_num [usPerDay]
    refine ⟨usPerDay * (a / usPerDay + 1), rfl, Int.mul_emod_right _ _, ?_, ?_⟩
    · have := lt_interval_step hd 0 a
      simpa using this
    · intro x hx hax
      obtain ⟨k, rfl⟩ : ∃ k, x = usPerDay * k := by
        refine ⟨x / usPerDay, ?_⟩
        have := Int.ediv_add_emod x usPerDay
        linarith
      have hk : a / usPerDay < k := Int.ediv_lt_of_lt_mul hd (by linarith)
      exact mul_le_mul_of_nonneg_left (Int.add_one_le_iff.mpr hk) (le_of_lt hd)
  · decide

theorem unanchored_interval_midnight_witness :
    ∃ c, clockNext (.IntervalClock usPerDay none none) (utc 2019 1 1 0 0 0) =
        some c ∧
      c % usPerDay = 0 ∧ utc 2019 1 1 0 0 0 < c ∧
      ∀ x : Int, x % usPerDay = 0 → utc 2019 1 1 0 0 0 < x → c ≤ x :=
  unanchored_interval_midnight.1 (utc 2019 1 1 0 0 0)

end Prefect
